import Mathlib

/-!
Verification of the avify batch image converter (Go) against its
specification.  The Go source is shallowly embedded: pure helpers
(`ReplaceExt`, the counting `Reader`) become Lean functions; the effectful
pipeline `ConvertImage` becomes a function from an explicit per-task
filesystem/codec environment to a result together with a trace of
filesystem effects; the concurrent `ConvertImages` aggregation becomes a
fold of the per-task outcomes over an arbitrary completion order; the
semaphore-bounded scheduler becomes a labelled transition system; and
`FindImagesAt` becomes a fold over the sequence of entries visited by the
directory walk.
-/

namespace Avify

/-- Errors returned by Go collaborators (filesystem, codec), modelled by
their message strings. -/
abbrev GoError := String

/-- Modulus of Go `uint64` arithmetic. -/
def U64MOD : Nat := 2 ^ 64

/-- Scan of the reversed character list of a path for its extension:
Go's `filepath.Ext` returns the suffix starting at the last dot of the
final path element, scanning backward from the end and stopping at a path
separator.  This helper returns that extension reversed. -/
def extRev : List Char → List Char
  | [] => []
  | c :: cs =>
    if c = '/' then []
    else if c = '.' then [c]
    else
      match extRev cs with
      | [] => []
      | e :: es => c :: e :: es

/-- Go `filepath.Ext` (used at src/main.go:263) on a Unix path. -/
def filepathExt (p : String) : String := ⟨(extRev p.data.reverse).reverse⟩

/-- Go `strings.TrimSuffix` (used at src/main.go:265): drops `suf` from the
end of `s` when it is a suffix of `s`, otherwise returns `s` unchanged. -/
def trimSuffix (s suf : String) : String :=
  if suf.data.isSuffixOf s.data then ⟨s.data.take (s.data.length - suf.data.length)⟩
  else s

/-- `ReplaceExt` (src/main.go:262-266): strip the final extension and
append the canonical output extension `.avif`. -/
def ReplaceExt (path : String) : String := trimSuffix path (filepathExt path) ++ ".avif"

theorem extRev_avif (l : List Char) :
    extRev ('f' :: 'i' :: 'v' :: 'a' :: '.' :: l) = ['f', 'i', 'v', 'a', '.'] := rfl

theorem filepathExt_append_avif (t : String) : filepathExt (t ++ ".avif") = ".avif" := by
  apply String.ext
  show (extRev (t ++ ".avif").data.reverse).reverse = _
  rw [String.data_append]
  show (extRev ((t.data ++ ['.', 'a', 'v', 'i', 'f']).reverse)).reverse = _
  rw [List.reverse_append]
  show (extRev ('f' :: 'i' :: 'v' :: 'a' :: '.' :: t.data.reverse)).reverse = _
  rw [extRev_avif]
  rfl

theorem trimSuffix_append_avif (t : String) : trimSuffix (t ++ ".avif") ".avif" = t := by
  unfold trimSuffix
  rw [String.data_append]
  have hsuf : (".avif".data).isSuffixOf (t.data ++ ".avif".data) = true := by
    rw [List.isSuffixOf_iff_suffix]
    exact List.suffix_append t.data ".avif".data
  rw [if_pos hsuf]
  apply String.ext
  show (t.data ++ ".avif".data).take ((t.data ++ ".avif".data).length - ".avif".data.length) = t.data
  rw [List.length_append]
  have h5 : t.data.length + (".avif".data).length - (".avif".data).length = t.data.length := by
    omega
  rw [h5]
  exact List.take_left t.data ".avif".data

theorem replaceExt_of_ends_avif (t : String) : ReplaceExt (t ++ ".avif") = t ++ ".avif" := by
  unfold ReplaceExt
  rw [filepathExt_append_avif, trimSuffix_append_avif]

theorem replaceExt_no_ext (p : String) (h : filepathExt p = "") :
    ReplaceExt p = p ++ ".avif" := by
  unfold ReplaceExt trimSuffix
  rw [h]
  have hsuf : (("" : String).data).isSuffixOf p.data = true := by
    simp [List.isSuffixOf_iff_suffix]
  rw [if_pos hsuf]
  have : p.data.take (p.data.length - ("" : String).data.length) = p.data := by
    show p.data.take (p.data.length - 0) = p.data
    rw [Nat.sub_zero, List.take_length]
  rw [String.ext this]

/-- C10: `ReplaceExt` is total and idempotent: every result ends with
`.avif`; applying it twice equals applying it once; a path already ending
in `.avif` is returned unchanged; and a path with no extension gets
`.avif` appended with nothing removed. -/
theorem ReplaceExt_total_idempotent (p : String) :
    (∃ u, ReplaceExt p = u ++ ".avif") ∧
    ReplaceExt (ReplaceExt p) = ReplaceExt p ∧
    ((∃ u, p = u ++ ".avif") → ReplaceExt p = p) ∧
    (filepathExt p = "" → ReplaceExt p = p ++ ".avif") := by
  refine ⟨⟨trimSuffix p (filepathExt p), rfl⟩, ?_, ?_, replaceExt_no_ext p⟩
  · exact replaceExt_of_ends_avif (trimSuffix p (filepathExt p))
  · rintro ⟨u, rfl⟩
    exact replaceExt_of_ends_avif u

/-- Concrete check of C10: a path already carrying the output extension is
fixed, and an extensionless path gets `.avif` appended. -/
theorem ReplaceExt_total_idempotent_witness :
    ReplaceExt "a.avif" = "a.avif" ∧ ReplaceExt "CHANGELOG" = "CHANGELOG" ++ ".avif" :=
  ⟨(ReplaceExt_total_idempotent "a.avif").2.2.1 ⟨"a", rfl⟩,
   (ReplaceExt_total_idempotent "CHANGELOG").2.2.2 rfl⟩

/-- `Reader` (src/main.go:245-248): wraps an `io.Reader` with a running
`count : int64` of the bytes its `Read` calls returned.  The wrapped
reader itself is abstract; only the counter is state. -/
structure Reader where
  count : Int
deriving DecidableEq

/-- Two's-complement wrap-around of Go `int64` arithmetic. -/
def wrap64 (x : Int) : Int := (x + 2 ^ 63) % 2 ^ 64 - 2 ^ 63

/-- `NewReader` (src/main.go:250-252): the counter starts at zero. -/
def NewReader : Reader := ⟨0⟩

/-- `Reader.Read` (src/main.go:254-260): the underlying reader returned
`n` bytes, and `r.count += int64(n)` with `int64` wrap-around. -/
def Reader.Read (r : Reader) (n : Nat) : Reader := ⟨wrap64 (r.count + n)⟩

/-- The reader state after the underlying stream returned the byte counts
`reads`, one entry per `Read` call, starting from `NewReader`. -/
def runReads (reads : List Nat) : Reader := reads.foldl Reader.Read NewReader

/-- Go conversion `uint64(x)` of an `int64` value. -/
def toU64 (x : Int) : Nat := (x % (2 ^ 64 : Int)).toNat

/-- Outcomes of the external calls `ConvertImage` makes for one path: the
filesystem and the vips codec are collaborators, so one task's run is a
function of this record.  `reads` lists the byte counts the decoder's
`Read` calls on the counting reader returned; `statSize` is the
filesystem-reported size of the source file, which the code never
consults. -/
structure TaskEnv where
  openErr : Option GoError
  reads : List Nat
  decodeErr : Option GoError
  encodeErr : Option GoError
  outputLen : Nat
  writeErr : Option GoError
  removeErr : Option GoError
  statSize : Nat
deriving DecidableEq

/-- Filesystem side effects a task performs, in order. -/
inductive Effect where
  | opened (p : String)
  | wrote (dst : String) (len : Nat)
  | removed (p : String)
deriving DecidableEq

/-- Result of `ConvertImage`: `(uint64, uint64, error)` with a nil error
collapsed into `ok`, a non-nil error into `err`. -/
inductive ConvertResult where
  | ok (sizeBefore sizeAfter : Nat)
  | err (e : GoError)
deriving DecidableEq

/-- `ConvertImage` (src/main.go:338-374): open, decode through the
counting reader, encode to AVIF, write the buffer to `ReplaceExt path`,
remove the original; each failing step returns `(0, 0, err)` at once.  On
success it returns `uint64(reader.count)` and `uint64(len(bytes))` (the
latter is the identity on the non-negative `len`).  The second component
is the trace of filesystem effects actually performed. -/
def ConvertImage (env : TaskEnv) (path : String) : ConvertResult × List Effect :=
  match env.openErr with
  | some e => (.err e, [])
  | none =>
    match env.decodeErr with
    | some e => (.err e, [.opened path])
    | none =>
      match env.encodeErr with
      | some e => (.err e, [.opened path])
      | none =>
        match env.writeErr with
        | some e => (.err e, [.opened path])
        | none =>
          match env.removeErr with
          | some e => (.err e, [.opened path, .wrote (ReplaceExt path) env.outputLen])
          | none =>
            (.ok (toU64 (runReads env.reads).count) env.outputLen,
             [.opened path, .wrote (ReplaceExt path) env.outputLen, .removed path])

theorem wrap64_emod (x : Int) : wrap64 x % 2 ^ 64 = x % 2 ^ 64 := by
  unfold wrap64
  omega

theorem foldl_read_count (reads : List Nat) (r : Reader) :
    (reads.foldl Reader.Read r).count % 2 ^ 64 = (r.count + reads.sum) % 2 ^ 64 := by
  induction reads generalizing r with
  | nil => simp
  | cons n rest ih =>
    rw [List.foldl_cons, ih]
    show (wrap64 (r.count + n) + rest.sum) % 2 ^ 64 = _
    rw [List.sum_cons]
    unfold wrap64
    push_cast
    omega

theorem runReads_count (reads : List Nat) :
    toU64 (runReads reads).count = reads.sum % U64MOD := by
  have h := foldl_read_count reads NewReader
  unfold toU64 runReads U64MOD
  rw [h]
  show (((0 : Int) + reads.sum) % 2 ^ 64).toNat = _
  omega

/-- C6: for every successful `ConvertImage` call the reported bytes-before
value is the accumulated counter of the counting reader — the sum of the
byte counts returned by every `Read` call, reduced by the
`int64`-to-`uint64` conversion — and the result never depends on the
filesystem-reported size of the source file. -/
theorem ConvertImage_bytesBefore_eq_readSum (env : TaskEnv) (path : String)
    (sb sa : Nat) (effs : List Effect)
    (h : ConvertImage env path = (.ok sb sa, effs)) :
    sb = env.reads.sum % U64MOD ∧
    ∀ m, ConvertImage { env with statSize := m } path = ConvertImage env path := by
  refine ⟨?_, fun m => rfl⟩
  unfold ConvertImage at h
  cases henv : env.openErr with
  | some e => rw [henv] at h; cases h
  | none =>
    rw [henv] at h
    cases h2 : env.decodeErr with
    | some e => rw [h2] at h; cases h
    | none =>
      rw [h2] at h
      cases h3 : env.encodeErr with
      | some e => rw [h3] at h; cases h
      | none =>
        rw [h3] at h
        cases h4 : env.writeErr with
        | some e => rw [h4] at h; cases h
        | none =>
          rw [h4] at h
          cases h5 : env.removeErr with
          | some e => rw [h5] at h; cases h
          | none =>
            rw [h5] at h
            have hsb : sb = toU64 (runReads env.reads).count := by
              cases h
              rfl
            rw [hsb, runReads_count]

/-- An environment in which every external call succeeds. -/
def envOk : TaskEnv := ⟨none, [100, 200], none, none, 50, none, none, 999⟩

/-- An environment in which only the final `os.Remove` fails. -/
def envRemoveFail : TaskEnv := ⟨none, [100, 200], none, none, 50, none, some "remove failed", 999⟩

/-- An environment in which decoding fails after 7 bytes were read. -/
def envDecodeFail : TaskEnv := ⟨none, [7], some "decode failed", none, 0, none, none, 3⟩

/-- Concrete check of C6: with reads of 100 and 200 bytes the successful
task reports 300 bytes before, whatever the stat size says. -/
theorem ConvertImage_bytesBefore_eq_readSum_witness :
    (300 : Nat) = envOk.reads.sum % U64MOD ∧
    ∀ m, ConvertImage { envOk with statSize := m } "a.jpg" = ConvertImage envOk "a.jpg" :=
  ConvertImage_bytesBefore_eq_readSum envOk "a.jpg" 300 50
    [.opened "a.jpg", .wrote (ReplaceExt "a.jpg") 50, .removed "a.jpg"] (by decide)

/-- C7: every write effect a task performs targets exactly
`ReplaceExt path`, and `ReplaceExt` is the trim-extension-append-avif
composition. -/
theorem ConvertImage_writes_to_ReplaceExt (env : TaskEnv) (path dst : String) (n : Nat)
    (hmem : Effect.wrote dst n ∈ (ConvertImage env path).2) :
    dst = ReplaceExt path ∧
    ReplaceExt path = trimSuffix path (filepathExt path) ++ ".avif" := by
  refine ⟨?_, rfl⟩
  obtain ⟨o, rds, d, en, ol, w, rm, st⟩ := env
  cases o with
  | some e => simp [ConvertImage] at hmem
  | none =>
    cases d with
    | some e => simp [ConvertImage] at hmem
    | none =>
      cases en with
      | some e => simp [ConvertImage] at hmem
      | none =>
        cases w with
        | some e => simp [ConvertImage] at hmem
        | none =>
          cases rm with
          | some e =>
            simp [ConvertImage] at hmem
            exact hmem.1
          | none =>
            simp [ConvertImage] at hmem
            exact hmem.1

/-- Concrete check of C7: the successful task writes to `a.avif`, the
extension-replaced source path. -/
theorem ConvertImage_writes_to_ReplaceExt_witness :
    "a.avif" = ReplaceExt "a.jpg" ∧
    ReplaceExt "a.jpg" = trimSuffix "a.jpg" (filepathExt "a.jpg") ++ ".avif" :=
  ConvertImage_writes_to_ReplaceExt envOk "a.jpg" "a.avif" 50 (by decide)

/-- C8: when only the final removal of the source fails, the whole task is
reported as a failure although the destination file was already written;
and a failure at any step short-circuits with no cleanup — a failing run
never removes any file, in particular not the written destination — while
a decode failure stops before any write. -/
theorem ConvertImage_remove_failure_short_circuit
    (env env' : TaskEnv) (path : String) (e₁ e₂ : GoError)
    (h1 : env.openErr = none) (h2 : env.decodeErr = none) (h3 : env.encodeErr = none)
    (h4 : env.writeErr = none) (h5 : env.removeErr = some e₁)
    (h6 : env'.openErr = none) (h7 : env'.decodeErr = some e₂) :
    (ConvertImage env path).1 = .err e₁ ∧
    Effect.wrote (ReplaceExt path) env.outputLen ∈ (ConvertImage env path).2 ∧
    (∀ env₂ : TaskEnv, ∀ e : GoError, (ConvertImage env₂ path).1 = .err e →
      ∀ q, Effect.removed q ∉ (ConvertImage env₂ path).2) ∧
    ConvertImage env' path = (.err e₂, [.opened path]) := by
  refine ⟨?_, ?_, ?_, ?_⟩
  · simp [ConvertImage, h1, h2, h3, h4, h5]
  · simp [ConvertImage, h1, h2, h3, h4, h5]
  · intro env₂ e he q hq
    obtain ⟨o, rds, d, en, ol, w, rm, st⟩ := env₂
    cases o with
    | some e0 => simp [ConvertImage] at hq
    | none =>
      cases d with
      | some e0 => simp [ConvertImage] at hq
      | none =>
        cases en with
        | some e0 => simp [ConvertImage] at hq
        | none =>
          cases w with
          | some e0 => simp [ConvertImage] at hq
          | none =>
            cases rm with
            | some e0 => simp [ConvertImage] at hq
            | none => simp [ConvertImage] at he
  · simp [ConvertImage, h6, h7]

/-- Concrete check of C8: a failing `os.Remove` turns the whole task into
a failure even though `a.avif` was written, and a decode failure stops
after only the open. -/
theorem ConvertImage_remove_failure_short_circuit_witness :
    (ConvertImage envRemoveFail "a.jpg").1 = ConvertResult.err "remove failed" ∧
    Effect.wrote (ReplaceExt "a.jpg") envRemoveFail.outputLen ∈
      (ConvertImage envRemoveFail "a.jpg").2 ∧
    ConvertImage envDecodeFail "a.jpg" = (ConvertResult.err "decode failed", [Effect.opened "a.jpg"]) := by
  have h := ConvertImage_remove_failure_short_circuit envRemoveFail envDecodeFail "a.jpg"
    "remove failed" "decode failed" rfl rfl rfl rfl rfl rfl rfl
  exact ⟨h.1, h.2.1, h.2.2.2⟩

/-- `Stats` (src/main.go:376-381): the shared aggregate of one batch. -/
structure Stats where
  Failed : List String
  SizeBefore : Nat
  SizeAfter : Nat
deriving DecidableEq

/-- The terminal result of one task, as the aggregation step sees it. -/
inductive Outcome where
  | success (sizeBefore sizeAfter : Nat)
  | failure (path : String)
deriving DecidableEq

/-- The outcome of the one `ConvertImage` call the goroutine for `p`
makes (src/main.go:405). -/
def taskOutcome (env : String → TaskEnv) (p : String) : Outcome :=
  match (ConvertImage (env p) p).1 with
  | .ok sb sa => .success sb sa
  | .err _ => .failure p

/-- One mutex-protected aggregation step (src/main.go:407-418): a failure
appends the path to `Failed`, a success adds both byte counts into the
`uint64` running totals. -/
def record (s : Stats) (o : Outcome) : Stats :=
  match o with
  | .success sb sa =>
      { s with SizeBefore := (s.SizeBefore + sb) % U64MOD,
               SizeAfter := (s.SizeAfter + sa) % U64MOD }
  | .failure p => { s with Failed := s.Failed ++ [p] }

/-- The zero `Stats` value `&Stats{}` (src/main.go:390). -/
def emptyStats : Stats := ⟨[], 0, 0⟩

/-- `ConvertImages` (src/main.go:383-425): every path is executed by
exactly one goroutine; the mutex serialises the `record` updates, so the
final stats are the fold of `record` over the task outcomes in some
completion order — an arbitrary permutation of the submitted paths —
and the returned error is always nil. -/
def ConvertImages (env : String → TaskEnv) (completionOrder : List String) :
    Stats × Option GoError :=
  ((completionOrder.map (taskOutcome env)).foldl record emptyStats, none)

/-- Whether the task for `p` succeeds under `env`. -/
def isTaskSuccess (env : String → TaskEnv) (p : String) : Bool :=
  match taskOutcome env p with
  | .success _ _ => true
  | .failure _ => false

/-- Bytes-before reported for `p` when its task succeeds. -/
def successBefore (env : String → TaskEnv) (p : String) : Option Nat :=
  match taskOutcome env p with
  | .success sb _ => some sb
  | .failure _ => none

/-- Bytes-after reported for `p` when its task succeeds. -/
def successAfter (env : String → TaskEnv) (p : String) : Option Nat :=
  match taskOutcome env p with
  | .success _ sa => some sa
  | .failure _ => none

theorem foldl_record_Failed (outs : List Outcome) (s : Stats) :
    (outs.foldl record s).Failed =
      s.Failed ++ outs.filterMap fun o =>
        match o with
        | .success _ _ => none
        | .failure p => some p := by
  induction outs generalizing s with
  | nil => simp
  | cons o rest ih =>
    cases o with
    | success sb sa =>
      rw [List.foldl_cons, ih]
      simp [record]
    | failure p =>
      rw [List.foldl_cons, ih]
      simp [record]

theorem foldl_record_sizes (outs : List Outcome) (s : Stats) :
    (outs.foldl record s).SizeBefore % U64MOD =
      (s.SizeBefore + (outs.filterMap fun o =>
        match o with
        | .success sb _ => some sb
        | .failure _ => none).sum) % U64MOD ∧
    (outs.foldl record s).SizeAfter % U64MOD =
      (s.SizeAfter + (outs.filterMap fun o =>
        match o with
        | .success _ sa => some sa
        | .failure _ => none).sum) % U64MOD := by
  induction outs generalizing s with
  | nil => simp
  | cons o rest ih =>
    cases o with
    | success sb sa =>
      rw [List.foldl_cons]
      obtain ⟨ihb, iha⟩ := ih (record s (.success sb sa))
      constructor
      · rw [ihb]
        show ((s.SizeBefore + sb) % U64MOD + _) % U64MOD = _
        rw [Nat.mod_add_mod]
        simp [List.filterMap_cons, Nat.add_assoc]
      · rw [iha]
        show ((s.SizeAfter + sa) % U64MOD + _) % U64MOD = _
        rw [Nat.mod_add_mod]
        simp [List.filterMap_cons, Nat.add_assoc]
    | failure p =>
      rw [List.foldl_cons]
      obtain ⟨ihb, iha⟩ := ih (record s (.failure p))
      refine ⟨?_, ?_⟩
      · rw [ihb]; simp [record, List.filterMap_cons]
      · rw [iha]; simp [record, List.filterMap_cons]

theorem foldl_record_size_lt (outs : List Outcome) (s : Stats) :
    ((outs.foldl record s).SizeBefore = s.SizeBefore ∧
     (outs.foldl record s).SizeAfter = s.SizeAfter) ∨
    ((outs.foldl record s).SizeBefore < U64MOD ∧
     (outs.foldl record s).SizeAfter < U64MOD) := by
  induction outs generalizing s with
  | nil => left; exact ⟨rfl, rfl⟩
  | cons o rest ih =>
    rw [List.foldl_cons]
    cases o with
    | success sb sa =>
      rcases ih (record s (.success sb sa)) with ⟨hb, ha⟩ | h
      · right
        rw [hb, ha]
        constructor <;> exact Nat.mod_lt _ (by decide)
      · right; exact h
    | failure p =>
      rcases ih (record s (.failure p)) with ⟨hb, ha⟩ | h
      · left
        rw [hb, ha]
        exact ⟨rfl, rfl⟩
      · right; exact h

theorem map_filterMap_before (env : String → TaskEnv) (l : List String) :
    ((l.map (taskOutcome env)).filterMap fun o =>
        match o with
        | .success sb _ => some sb
        | .failure _ => none) = l.filterMap (successBefore env) := by
  rw [List.filterMap_map]
  apply List.filterMap_congr
  intro p _
  rfl

theorem map_filterMap_after (env : String → TaskEnv) (l : List String) :
    ((l.map (taskOutcome env)).filterMap fun o =>
        match o with
        | .success _ sa => some sa
        | .failure _ => none) = l.filterMap (successAfter env) := by
  rw [List.filterMap_map]
  apply List.filterMap_congr
  intro p _
  rfl

theorem map_filterMap_failed (env : String → TaskEnv) (l : List String) :
    ((l.map (taskOutcome env)).filterMap fun o =>
        match o with
        | .success _ _ => none
        | .failure p => some p) = l.filter fun p => !(isTaskSuccess env p) := by
  induction l with
  | nil => rfl
  | cons p rest ih =>
    rw [List.map_cons, List.filterMap_cons, List.filter_cons]
    unfold isTaskSuccess
    cases h : taskOutcome env p with
    | success sb sa => simpa [h] using ih
    | failure q =>
      have hq : q = p := by
        unfold taskOutcome at h
        cases hc : (ConvertImage (env p) p).1 with
        | ok a b => rw [hc] at h; simp at h
        | err e => rw [hc] at h; simp at h; exact h.symm
      simp only [h, hq, ih, Bool.not_true, Bool.not_false, if_true]
      rfl

theorem convertImages_sizes (env : String → TaskEnv) (order : List String) :
    (ConvertImages env order).1.SizeBefore = (order.filterMap (successBefore env)).sum % U64MOD ∧
    (ConvertImages env order).1.SizeAfter = (order.filterMap (successAfter env)).sum % U64MOD := by
  show ((order.map (taskOutcome env)).foldl record emptyStats).SizeBefore = _ ∧
    ((order.map (taskOutcome env)).foldl record emptyStats).SizeAfter = _
  have hmod := foldl_record_sizes (order.map (taskOutcome env)) emptyStats
  have hlt := foldl_record_size_lt (order.map (taskOutcome env)) emptyStats
  rw [map_filterMap_before, map_filterMap_after] at hmod
  have hbpos : (0 : Nat) < U64MOD := by decide
  have hfin : ((order.map (taskOutcome env)).foldl record emptyStats).SizeBefore < U64MOD ∧
      ((order.map (taskOutcome env)).foldl record emptyStats).SizeAfter < U64MOD := by
    rcases hlt with ⟨hb, ha⟩ | h
    · rw [hb, ha]
      exact ⟨hbpos, hbpos⟩
    · exact h
  obtain ⟨hmb, hma⟩ := hmod
  rw [Nat.mod_eq_of_lt hfin.1] at hmb
  rw [Nat.mod_eq_of_lt hfin.2] at hma
  rw [hmb, hma]
  constructor <;> simp [emptyStats]

/-- C1: every submitted path produces exactly one recorded outcome — for
every completion order that is a permutation of the submitted paths, the
length of the failure list plus the number of successful tasks equals the
number of submitted paths. -/
theorem ConvertImages_outcome_conservation (env : String → TaskEnv)
    (paths completionOrder : List String) (hperm : completionOrder.Perm paths) :
    (ConvertImages env completionOrder).1.Failed.length +
      paths.countP (isTaskSuccess env) = paths.length := by
  show ((completionOrder.map (taskOutcome env)).foldl record emptyStats).Failed.length + _ = _
  rw [foldl_record_Failed, map_filterMap_failed]
  show ([] ++ _).length + _ = _
  rw [List.nil_append]
  rw [← List.countP_eq_length_filter]
  rw [hperm.countP_eq]
  have h := List.length_eq_countP_add_countP (isTaskSuccess env) paths
  have hcp : paths.countP (fun a => !(isTaskSuccess env a)) =
      paths.countP fun a => decide ¬(isTaskSuccess env a = true) :=
    List.countP_congr fun a _ => by cases isTaskSuccess env a <;> simp
  omega

/-- A batch environment in which the task for `b.jpg` fails to decode and
every other task succeeds. -/
def envMix : String → TaskEnv := fun p => if p = "b.jpg" then envDecodeFail else envOk

/-- Concrete check of C1 on a three-path batch with one failing task and a
completion order different from submission order. -/
theorem ConvertImages_outcome_conservation_witness :
    (ConvertImages envMix ["c.png", "a.jpg", "b.jpg"]).1.Failed.length +
      (["a.jpg", "b.jpg", "c.png"].countP (isTaskSuccess envMix)) =
      (["a.jpg", "b.jpg", "c.png"] : List String).length :=
  ConvertImages_outcome_conservation envMix ["a.jpg", "b.jpg", "c.png"]
    ["c.png", "a.jpg", "b.jpg"] (by decide)

/-- C2: one task's failure never prevents the processing of the others —
for every completion order of the submitted paths, `ConvertImages` returns
a nil error, its failure list is exactly the failing paths, and its byte
totals are the `uint64` sums over the successful tasks alone. -/
theorem ConvertImages_failure_isolation (env : String → TaskEnv)
    (paths completionOrder : List String) (hperm : completionOrder.Perm paths)
    (_hfail : ∃ p ∈ paths, isTaskSuccess env p = false) :
    (ConvertImages env completionOrder).2 = none ∧
    (ConvertImages env completionOrder).1.Failed.Perm
      (paths.filter fun p => !(isTaskSuccess env p)) ∧
    (ConvertImages env completionOrder).1.SizeBefore =
      (paths.filterMap (successBefore env)).sum % U64MOD ∧
    (ConvertImages env completionOrder).1.SizeAfter =
      (paths.filterMap (successAfter env)).sum % U64MOD := by
  obtain ⟨hsb, hsa⟩ := convertImages_sizes env completionOrder
  refine ⟨rfl, ?_, ?_, ?_⟩
  · show ((completionOrder.map (taskOutcome env)).foldl record emptyStats).Failed.Perm _
    rw [foldl_record_Failed, map_filterMap_failed]
    simpa [emptyStats] using hperm.filter fun p => !(isTaskSuccess env p)
  · rw [hsb, (hperm.filterMap (successBefore env)).sum_eq]
  · rw [hsa, (hperm.filterMap (successAfter env)).sum_eq]

/-- Concrete check of C2: with `b.jpg` failing, a reversed completion
order still yields a nil error, the singleton failure list and the totals
of the two successful tasks. -/
theorem ConvertImages_failure_isolation_witness :
    (ConvertImages envMix ["c.png", "b.jpg", "a.jpg"]).2 = none ∧
    (ConvertImages envMix ["c.png", "b.jpg", "a.jpg"]).1.Failed.Perm
      (["a.jpg", "b.jpg", "c.png"].filter fun p => !(isTaskSuccess envMix p)) ∧
    (ConvertImages envMix ["c.png", "b.jpg", "a.jpg"]).1.SizeBefore =
      (["a.jpg", "b.jpg", "c.png"].filterMap (successBefore envMix)).sum % U64MOD ∧
    (ConvertImages envMix ["c.png", "b.jpg", "a.jpg"]).1.SizeAfter =
      (["a.jpg", "b.jpg", "c.png"].filterMap (successAfter envMix)).sum % U64MOD :=
  ConvertImages_failure_isolation envMix ["a.jpg", "b.jpg", "c.png"]
    ["c.png", "b.jpg", "a.jpg"] (by decide) ⟨"b.jpg", by decide, by decide⟩

/-- C5: the final byte totals are invariant under reordering of task
completions — any two completion orders over the same multiset of tasks
produce equal `SizeBefore` and `SizeAfter` totals. -/
theorem ConvertImages_order_invariant (env : String → TaskEnv)
    (order₁ order₂ : List String) (hperm : order₁.Perm order₂) :
    (ConvertImages env order₁).1.SizeBefore = (ConvertImages env order₂).1.SizeBefore ∧
    (ConvertImages env order₁).1.SizeAfter = (ConvertImages env order₂).1.SizeAfter := by
  obtain ⟨h1b, h1a⟩ := convertImages_sizes env order₁
  obtain ⟨h2b, h2a⟩ := convertImages_sizes env order₂
  rw [h1b, h2b, h1a, h2a, (hperm.filterMap (successBefore env)).sum_eq,
    (hperm.filterMap (successAfter env)).sum_eq]
  exact ⟨rfl, rfl⟩

/-- Concrete check of C5: two opposite completion orders of the same
three-task batch agree on both totals. -/
theorem ConvertImages_order_invariant_witness :
    (ConvertImages envMix ["a.jpg", "b.jpg", "c.png"]).1.SizeBefore =
      (ConvertImages envMix ["c.png", "b.jpg", "a.jpg"]).1.SizeBefore ∧
    (ConvertImages envMix ["a.jpg", "b.jpg", "c.png"]).1.SizeAfter =
      (ConvertImages envMix ["c.png", "b.jpg", "a.jpg"]).1.SizeAfter :=
  ConvertImages_order_invariant envMix ["a.jpg", "b.jpg", "c.png"]
    ["c.png", "b.jpg", "a.jpg"] (by decide)

/-- A state of the admission loop of `ConvertImages`
(src/main.go:392-422): the paths not yet handed off, the free permits of
the weighted semaphore, the tasks currently in flight and the aggregate
recorded so far. -/
structure SchedState where
  pending : List String
  available : Nat
  running : List String
  stats : Stats
deriving DecidableEq

/-- The start of a batch: all paths pending, `semaphore.NewWeighted`
holding all `N` permits (src/main.go:394), nothing running, zero stats. -/
def initState (N : Nat) (paths : List String) : SchedState :=
  ⟨paths, N, [], emptyStats⟩

/-- One scheduler transition: `spawn` models `sm.Acquire` followed by
`go func(path)` (src/main.go:399-401) — it blocks unless a permit is
free; `finish` models one goroutine terminating — it records the task's
outcome under the mutex and releases its permit via the unconditional
`defer sm.Release(1)` (src/main.go:403), succeeding and failing tasks
alike. -/
inductive SchedStep (env : String → TaskEnv) : SchedState → SchedState → Prop where
  | spawn (s : SchedState) (p : String) (rest : List String) :
      s.pending = p :: rest → 0 < s.available →
      SchedStep env s ⟨rest, s.available - 1, p :: s.running, s.stats⟩
  | finish (s : SchedState) (p : String) :
      p ∈ s.running →
      SchedStep env s
        ⟨s.pending, s.available + 1, s.running.erase p,
         record s.stats (taskOutcome env p)⟩

/-- States the scheduler can reach from the start of a batch. -/
def Reachable (env : String → TaskEnv) (N : Nat) (paths : List String)
    (s : SchedState) : Prop :=
  Relation.ReflTransGen (SchedStep env) (initState N paths) s

theorem reachable_permit_invariant (env : String → TaskEnv) (N : Nat)
    (paths : List String) (s : SchedState)
    (hreach : Reachable env N paths s) :
    s.available + s.running.length = N := by
  induction hreach with
  | refl => simp [initState]
  | tail _ hstep ih =>
    cases hstep with
    | spawn p rest hp hpos =>
      dsimp only
      rw [List.length_cons]
      omega
    | finish p hmem =>
      dsimp only
      rw [List.length_erase_of_mem hmem]
      have hpos := List.length_pos.mpr (List.ne_nil_of_mem hmem)
      omega

/-- C4: for every concurrency budget `N ≥ 1`, in every reachable
scheduler state at most `N` tasks are in flight; and since every
terminating task — failing or not — releases its permit, a drained batch
(nothing pending, nothing running) holds all `N` permits again: no permit
is ever leaked. -/
theorem scheduler_bounded_concurrency (env : String → TaskEnv) (N : Nat)
    (paths : List String) (s : SchedState) (_hN : 1 ≤ N)
    (hreach : Reachable env N paths s) :
    s.running.length ≤ N ∧
    (s.pending = [] ∧ s.running = [] → s.available = N) := by
  have hinv := reachable_permit_invariant env N paths s hreach
  constructor
  · omega
  · rintro ⟨-, hrun⟩
    rw [hrun] at hinv
    simpa using hinv

/-- Concrete check of C4: with budget 1, after spawning `a.jpg` and
letting it finish, then spawning `b.jpg`, exactly one task is in flight
and the bound holds. -/
theorem scheduler_bounded_concurrency_witness :
    (⟨[], 0, ["b.jpg"],
        record emptyStats (taskOutcome envMix "a.jpg")⟩ : SchedState).running.length ≤ 1 ∧
    ((⟨[], 0, ["b.jpg"],
        record emptyStats (taskOutcome envMix "a.jpg")⟩ : SchedState).pending = [] ∧
      (⟨[], 0, ["b.jpg"],
        record emptyStats (taskOutcome envMix "a.jpg")⟩ : SchedState).running = [] →
      (⟨[], 0, ["b.jpg"],
        record emptyStats (taskOutcome envMix "a.jpg")⟩ : SchedState).available = 1) := by
  apply scheduler_bounded_concurrency envMix 1 ["a.jpg", "b.jpg"] _ (le_refl 1)
  have h1 : SchedStep envMix (initState 1 ["a.jpg", "b.jpg"])
      ⟨["b.jpg"], 0, ["a.jpg"], emptyStats⟩ :=
    SchedStep.spawn (initState 1 ["a.jpg", "b.jpg"]) "a.jpg" ["b.jpg"] rfl (by decide)
  have h2 : SchedStep envMix (⟨["b.jpg"], 0, ["a.jpg"], emptyStats⟩ : SchedState)
      ⟨["b.jpg"], 1, [], record emptyStats (taskOutcome envMix "a.jpg")⟩ :=
    SchedStep.finish ⟨["b.jpg"], 0, ["a.jpg"], emptyStats⟩ "a.jpg" (by decide)
  have h3 : SchedStep envMix
      (⟨["b.jpg"], 1, [], record emptyStats (taskOutcome envMix "a.jpg")⟩ : SchedState)
      ⟨[], 0, ["b.jpg"], record emptyStats (taskOutcome envMix "a.jpg")⟩ :=
    SchedStep.spawn ⟨["b.jpg"], 1, [], record emptyStats (taskOutcome envMix "a.jpg")⟩
      "b.jpg" [] rfl (by decide)
  exact ((Relation.ReflTransGen.single h1).tail h2).tail h3

/-- Classification of a filesystem entry, as Go's `d.Type().IsRegular()`
distinguishes it. -/
inductive FType where
  | regular
  | dir
  | symlink
  | other
deriving DecidableEq

/-- One entry the directory walk visits: its path, its type, and the
error (if any) handed to the walk callback for it. -/
structure Entry where
  path : String
  typ : FType
  err : Option GoError
deriving DecidableEq

/-- Model of the compiled regular expression
`\.(gif|jpg|jpeg|png|webp)$` (src/main.go:213): `MatchString` succeeds
exactly when the path ends in one of the five literal extensions — `$`
anchors at end of text and matching is case-sensitive. -/
def matchesExt (p : String) : Bool :=
  [".gif", ".jpg", ".jpeg", ".png", ".webp"].any fun s => s.data.isSuffixOf p.data

/-- The walk callback fold (src/main.go:307-329) over the entries
`filepath.WalkDir` visits, in visit order: a callback error aborts the
walk at once with that error, non-regular entries are skipped, and a
matching regular file is appended to the accumulator. -/
def walkFold : List Entry → List String → List String × Option GoError
  | [], acc => (acc, none)
  | e :: es, acc =>
    match e.err with
    | some er => (acc, some er)
    | none =>
      if e.typ ≠ FType.regular then walkFold es acc
      else if matchesExt e.path then walkFold es (acc ++ [e.path])
      else walkFold es acc

/-- `FindImagesAt` (src/main.go:291-332) as a function of the visited
entry sequence: the accumulated file list together with the walk's
error. -/
def FindImagesAt (entries : List Entry) : List String × Option GoError :=
  walkFold entries []

/-- The observable outcome of `main` (src/main.go:429-463). -/
inductive MainOutcome where
  | panicked (e : GoError)
  | noImages
  | converted (stats : Stats)
deriving DecidableEq

/-- The decision structure of `main` after discovery
(src/main.go:444-456): a traversal error panics before any task is
scheduled; an empty path list prints `No images found` and exits; only
otherwise is `ConvertImages` invoked (here in submission order). -/
def mainRun (entries : List Entry) (env : String → TaskEnv) : MainOutcome :=
  match FindImagesAt entries with
  | (_, some e) => .panicked e
  | (paths, none) =>
    if paths.isEmpty then .noImages
    else .converted (ConvertImages env paths).1

theorem walkFold_cons (e : Entry) (es : List Entry) (acc : List String) :
    walkFold (e :: es) acc =
      match e.err with
      | some er => (acc, some er)
      | none =>
        if e.typ ≠ FType.regular then walkFold es acc
        else if matchesExt e.path then walkFold es (acc ++ [e.path])
        else walkFold es acc := rfl

theorem walkFold_append_of_clean (pre rest : List Entry) (acc : List String)
    (hpre : ∀ e ∈ pre, e.err = none) :
    walkFold (pre ++ rest) acc = walkFold rest (walkFold pre acc).1 := by
  induction pre generalizing acc with
  | nil => rfl
  | cons e pre' ih =>
    have he : e.err = none := hpre e (List.mem_cons_self e pre')
    have hpre' : ∀ x ∈ pre', x.err = none := fun x hx => hpre x (List.mem_cons_of_mem e hx)
    rw [List.cons_append, walkFold_cons, walkFold_cons, he]
    dsimp only
    by_cases ht : e.typ ≠ FType.regular
    · rw [if_pos ht, if_pos ht, ih acc hpre']
    · rw [if_neg ht, if_neg ht]
      by_cases hm : matchesExt e.path
      · rw [if_pos hm, if_pos hm, ih (acc ++ [e.path]) hpre']
      · rw [if_neg hm, if_neg hm, ih acc hpre']

theorem walkFold_clean (entries : List Entry) (acc : List String)
    (hclean : ∀ e ∈ entries, e.err = none) :
    walkFold entries acc =
      (acc ++ (entries.filter fun e =>
        decide (e.typ = FType.regular) && matchesExt e.path).map Entry.path, none) := by
  induction entries generalizing acc with
  | nil => simp [walkFold]
  | cons e es ih =>
    have he : e.err = none := hclean e (List.mem_cons_self e es)
    have hes : ∀ x ∈ es, x.err = none := fun x hx => hclean x (List.mem_cons_of_mem e hx)
    rw [walkFold_cons, he, List.filter_cons]
    dsimp only
    by_cases ht : e.typ = FType.regular
    · by_cases hm : matchesExt e.path
      · rw [if_neg (by simp [ht]), if_pos hm, ih (acc ++ [e.path]) hes]
        simp [ht, hm]
      · rw [if_neg (by simp [ht]), if_neg hm, ih acc hes]
        simp [ht, hm]
    · rw [if_pos (by simp [ht]), ih acc hes]
      simp [ht]

/-- C3: discovery is all-or-nothing and distinguishes zero matches from
failure — the first callback error becomes the error of the whole walk,
entries after it are never consulted, and `main` panics before scheduling
any task; whereas an error-free walk over entries with no matching
regular file returns an empty list with a nil error, which `main` turns
into the distinct no-work outcome. -/
theorem FindImagesAt_all_or_nothing (pre post : List Entry) (bad : Entry)
    (er : GoError) (env env₂ : String → TaskEnv) (entries₂ : List Entry)
    (hpre : ∀ e ∈ pre, e.err = none) (hbad : bad.err = some er)
    (hclean : ∀ e ∈ entries₂, e.err = none)
    (hnomatch : ∀ e ∈ entries₂, e.typ = FType.regular → matchesExt e.path = false) :
    ((FindImagesAt (pre ++ bad :: post)).2 = some er ∧
     FindImagesAt (pre ++ bad :: post) = FindImagesAt (pre ++ [bad]) ∧
     mainRun (pre ++ bad :: post) env = .panicked er) ∧
    (FindImagesAt entries₂ = ([], none) ∧
     mainRun entries₂ env₂ = .noImages ∧
     mainRun entries₂ env₂ ≠ .panicked er) := by
  have hstop : ∀ rest : List Entry, walkFold (bad :: rest) (walkFold pre []).1 =
      ((walkFold pre []).1, some er) := by
    intro rest
    rw [walkFold_cons, hbad]
  have habort : FindImagesAt (pre ++ bad :: post) = ((walkFold pre []).1, some er) := by
    unfold FindImagesAt
    rw [walkFold_append_of_clean pre (bad :: post) [] hpre, hstop]
  have habort' : FindImagesAt (pre ++ [bad]) = ((walkFold pre []).1, some er) := by
    unfold FindImagesAt
    rw [walkFold_append_of_clean pre [bad] [] hpre, hstop]
  have hempty : FindImagesAt entries₂ = ([], none) := by
    unfold FindImagesAt
    rw [walkFold_clean entries₂ [] hclean]
    have : (entries₂.filter fun e =>
        decide (e.typ = FType.regular) && matchesExt e.path) = [] := by
      rw [List.filter_eq_nil_iff]
      intro e he
      by_cases ht : e.typ = FType.regular
      · simp [ht, hnomatch e he ht]
      · simp [ht]
    rw [this]
    rfl
  refine ⟨⟨by rw [habort], by rw [habort, habort'], ?_⟩, hempty, ?_, ?_⟩
  · unfold mainRun
    rw [habort]
  · unfold mainRun
    rw [hempty]
    rfl
  · unfold mainRun
    rw [hempty]
    simp

/-- Concrete check of C3: a directory entry error after one match aborts
the walk, ignores later entries and panics `main`; an error-free tree
holding only a directory and a text file yields the no-work outcome. -/
theorem FindImagesAt_all_or_nothing_witness :
    ((FindImagesAt
        [⟨"root/a.jpg", FType.regular, none⟩,
         ⟨"root/locked", FType.dir, some "permission denied"⟩,
         ⟨"root/b.png", FType.regular, none⟩]).2 = some "permission denied" ∧
      FindImagesAt
        [⟨"root/a.jpg", FType.regular, none⟩,
         ⟨"root/locked", FType.dir, some "permission denied"⟩,
         ⟨"root/b.png", FType.regular, none⟩] =
      FindImagesAt
        [⟨"root/a.jpg", FType.regular, none⟩,
         ⟨"root/locked", FType.dir, some "permission denied"⟩] ∧
      mainRun
        [⟨"root/a.jpg", FType.regular, none⟩,
         ⟨"root/locked", FType.dir, some "permission denied"⟩,
         ⟨"root/b.png", FType.regular, none⟩] envMix = .panicked "permission denied") ∧
    (FindImagesAt [⟨"root", FType.dir, none⟩, ⟨"root/c.txt", FType.regular, none⟩] =
        ([], none) ∧
      mainRun [⟨"root", FType.dir, none⟩, ⟨"root/c.txt", FType.regular, none⟩] envMix =
        .noImages ∧
      mainRun [⟨"root", FType.dir, none⟩, ⟨"root/c.txt", FType.regular, none⟩] envMix ≠
        .panicked "permission denied") :=
  FindImagesAt_all_or_nothing
    [⟨"root/a.jpg", FType.regular, none⟩]
    [⟨"root/b.png", FType.regular, none⟩]
    ⟨"root/locked", FType.dir, some "permission denied"⟩
    "permission denied" envMix envMix
    [⟨"root", FType.dir, none⟩, ⟨"root/c.txt", FType.regular, none⟩]
    (by decide) rfl (by decide) (by decide)

/-- C9: over an error-free walk the filter is exact — the discovered
paths are precisely the visited regular files whose path passes the
case-sensitive anchored extension test, in visit order, and the walk
reports no error; the test itself rejects an upper-case variant of an
allowed extension. -/
theorem FindImagesAt_filter_exact (entries : List Entry)
    (hclean : ∀ e ∈ entries, e.err = none) :
    (FindImagesAt entries).1 =
      (entries.filter fun e =>
        decide (e.typ = FType.regular) && matchesExt e.path).map Entry.path ∧
    (FindImagesAt entries).2 = none ∧
    matchesExt "photo.JPG" = false ∧ matchesExt "photo.jpg" = true := by
  unfold FindImagesAt
  rw [walkFold_clean entries [] hclean]
  exact ⟨by simp, rfl, by decide, by decide⟩

/-- Concrete check of C9: a mixed tree keeps only the matching regular
files — the directory named like an image and the upper-case `.JPG` file
are excluded. -/
theorem FindImagesAt_filter_exact_witness :
    (FindImagesAt
        [⟨"root/pics.jpg", FType.dir, none⟩,
         ⟨"root/pics.jpg/a.webp", FType.regular, none⟩,
         ⟨"root/B.JPG", FType.regular, none⟩,
         ⟨"root/note.txt", FType.regular, none⟩,
         ⟨"root/link.png", FType.symlink, none⟩]).1 =
      ([⟨"root/pics.jpg", FType.dir, none⟩,
        ⟨"root/pics.jpg/a.webp", FType.regular, none⟩,
        ⟨"root/B.JPG", FType.regular, none⟩,
        ⟨"root/note.txt", FType.regular, none⟩,
        ⟨"root/link.png", FType.symlink, none⟩].filter fun e =>
          decide (e.typ = FType.regular) && matchesExt e.path).map Entry.path ∧
    (FindImagesAt
        [⟨"root/pics.jpg", FType.dir, none⟩,
         ⟨"root/pics.jpg/a.webp", FType.regular, none⟩,
         ⟨"root/B.JPG", FType.regular, none⟩,
         ⟨"root/note.txt", FType.regular, none⟩,
         ⟨"root/link.png", FType.symlink, none⟩]).2 = none ∧
    matchesExt "photo.JPG" = false ∧ matchesExt "photo.jpg" = true :=
  FindImagesAt_filter_exact
    [⟨"root/pics.jpg", FType.dir, none⟩,
     ⟨"root/pics.jpg/a.webp", FType.regular, none⟩,
     ⟨"root/B.JPG", FType.regular, none⟩,
     ⟨"root/note.txt", FType.regular, none⟩,
     ⟨"root/link.png", FType.symlink, none⟩] (by decide)

end Avify
